import Mathlib

/-!
Verification of the entavi voice-call engine core (src-tauri/src).

Shallow embedding conventions:
* Audio samples and positions are modelled as exact rationals (`ℚ`); the Rust
  code computes in f32/f64, but every claim checked here is structural
  (which indices are read, which branches are taken, which values are
  forwarded), not about rounding.
* JSON is modelled as a tree (`Json`); serde_json's text layer is an external
  library and is modelled at the value level.
* Library calls that live outside this repository (Opus encode/decode,
  RNNoise, cpal device I/O, webrtc transport) are modelled as abstract
  parameters or identity hooks; the repository's own control flow around
  them is embedded faithfully.
-/

namespace Entavi

-- ── Audio constants (types.rs) ──

def SAMPLE_RATE : ℕ := 48000

def CHANNELS : ℕ := 1

def FRAME_SIZE : ℕ := 960

-- ── JSON value model ──

inductive Json where
  | null : Json
  | bool (b : Bool) : Json
  | num (n : Int) : Json
  | str (s : String) : Json
  | arr (xs : List Json) : Json
  | obj (fields : List (String × Json)) : Json

/-- First-match field lookup in a JSON object's field list. -/
def lookupField : List (String × Json) → String → Option Json
  | [], _ => none
  | (k2, v) :: rest, k => if k2 = k then some v else lookupField rest k

def Json.getField : Json → String → Option Json
  | .obj fs, k => lookupField fs k
  | _, _ => none

/-- serde: required `String` field. -/
def getStr (j : Json) (k : String) : Option String :=
  match j.getField k with
  | some (.str s) => some s
  | _ => none

/-- serde: `Option String` field (missing or null deserializes to `None`). -/
def getOptStr (j : Json) (k : String) : Option (Option String) :=
  match j.getField k with
  | none => some none
  | some .null => some none
  | some (.str s) => some (some s)
  | some _ => none

/-- serde: `#[serde(default)] String` field (missing deserializes to `""`). -/
def getStrOrEmpty (j : Json) (k : String) : Option String :=
  match j.getField k with
  | none => some ""
  | some (.str s) => some s
  | some _ => none

/-- serde: `#[serde(default)] bool` field (missing deserializes to `false`). -/
def getBoolOrFalse (j : Json) (k : String) : Option Bool :=
  match j.getField k with
  | none => some false
  | some (.bool b) => some b
  | some _ => none

/-- serde: required `bool` field. -/
def getBool (j : Json) (k : String) : Option Bool :=
  match j.getField k with
  | some (.bool b) => some b
  | _ => none

/-- serde: `Option u16` field (missing or null deserializes to `None`). -/
def getOptU16 (j : Json) (k : String) : Option (Option (Fin 65536)) :=
  match j.getField k with
  | none => some none
  | some .null => some none
  | some (.num n) =>
      if h : 0 ≤ n ∧ n.toNat < 65536 then some (some ⟨n.toNat, h.2⟩) else none
  | some _ => none

def optStrToJson : Option String → Json
  | none => .null
  | some s => .str s

-- ── PeerInfo (types.rs) ──

structure PeerInfo where
  peer_id : String
  name : String
deriving DecidableEq

def PeerInfo.toJson (p : PeerInfo) : Json :=
  .obj [("peer_id", .str p.peer_id), ("name", .str p.name)]

def PeerInfo.fromJson (j : Json) : Option PeerInfo := do
  let peer_id ← getStr j "peer_id"
  let name ← getStrOrEmpty j "name"
  some ⟨peer_id, name⟩

def parsePeers : List Json → Option (List PeerInfo)
  | [] => some []
  | j :: rest => do
      let p ← PeerInfo.fromJson j
      let ps ← parsePeers rest
      some (p :: ps)

-- ── SignalPayload (types.rs, tag = "kind", snake_case) ──

inductive SignalPayload where
  | offer (sdp : String)
  | answer (sdp : String)
  | iceCandidate (candidate : String) (sdp_mid : Option String)
      (sdp_mline_index : Option (Fin 65536))
deriving DecidableEq

def SignalPayload.tag : SignalPayload → String
  | .offer _ => "offer"
  | .answer _ => "answer"
  | .iceCandidate _ _ _ => "ice_candidate"

def SignalPayload.toJson : SignalPayload → Json
  | .offer sdp => .obj [("kind", .str "offer"), ("sdp", .str sdp)]
  | .answer sdp => .obj [("kind", .str "answer"), ("sdp", .str sdp)]
  | .iceCandidate c mid idx =>
      .obj [("kind", .str "ice_candidate"), ("candidate", .str c),
            ("sdp_mid", optStrToJson mid),
            ("sdp_mline_index", match idx with | none => .null | some v => .num v.val)]

def SignalPayload.fromJson (j : Json) : Option SignalPayload :=
  match getStr j "kind" with
  | some "offer" => do
      let sdp ← getStr j "sdp"
      some (.offer sdp)
  | some "answer" => do
      let sdp ← getStr j "sdp"
      some (.answer sdp)
  | some "ice_candidate" => do
      let c ← getStr j "candidate"
      let mid ← getOptStr j "sdp_mid"
      let idx ← getOptU16 j "sdp_mline_index"
      some (.iceCandidate c mid idx)
  | _ => none

-- ── SignalMessage (types.rs, tag = "type", snake_case) ──

inductive SignalMessage where
  | join (room_id : String) (peer_id : String) (name : String) (password : Option String)
  | leave (room_id : String) (peer_id : String)
  | signal (to_ : Option String) (from_ : Option String) (payload : SignalPayload)
  | kick (peer_id : String)
  | forceMute (peer_id : String)
  | lockRoom (password : Option String)
  | roomJoined (room_id : String) (peers : List PeerInfo) (is_host : Bool) (locked : Bool)
  | peerJoined (peer_id : String) (name : String)
  | peerLeft (peer_id : String)
  | kicked
  | forceMuted
  | roomLocked (locked : Bool)
  | roomLockedError
deriving DecidableEq

def SignalMessage.tag : SignalMessage → String
  | .join _ _ _ _ => "join"
  | .leave _ _ => "leave"
  | .signal _ _ _ => "signal"
  | .kick _ => "kick"
  | .forceMute _ => "force_mute"
  | .lockRoom _ => "lock_room"
  | .roomJoined _ _ _ _ => "room_joined"
  | .peerJoined _ _ => "peer_joined"
  | .peerLeft _ => "peer_left"
  | .kicked => "kicked"
  | .forceMuted => "force_muted"
  | .roomLocked _ => "room_locked"
  | .roomLockedError => "room_locked_error"

def SignalMessage.toJson : SignalMessage → Json
  | .join room_id peer_id name password =>
      .obj [("type", .str "join"), ("room_id", .str room_id), ("peer_id", .str peer_id),
            ("name", .str name), ("password", optStrToJson password)]
  | .leave room_id peer_id =>
      .obj [("type", .str "leave"), ("room_id", .str room_id), ("peer_id", .str peer_id)]
  | .signal to_ from_ payload =>
      .obj ([("type", Json.str "signal")] ++
            (match to_ with | none => [] | some t => [("to", Json.str t)]) ++
            (match from_ with | none => [] | some f => [("from", Json.str f)]) ++
            [("payload", payload.toJson)])
  | .kick peer_id => .obj [("type", .str "kick"), ("peer_id", .str peer_id)]
  | .forceMute peer_id => .obj [("type", .str "force_mute"), ("peer_id", .str peer_id)]
  | .lockRoom password => .obj [("type", .str "lock_room"), ("password", optStrToJson password)]
  | .roomJoined room_id peers is_host locked =>
      .obj [("type", .str "room_joined"), ("room_id", .str room_id),
            ("peers", .arr (peers.map PeerInfo.toJson)),
            ("is_host", .bool is_host), ("locked", .bool locked)]
  | .peerJoined peer_id name =>
      .obj [("type", .str "peer_joined"), ("peer_id", .str peer_id), ("name", .str name)]
  | .peerLeft peer_id => .obj [("type", .str "peer_left"), ("peer_id", .str peer_id)]
  | .kicked => .obj [("type", .str "kicked")]
  | .forceMuted => .obj [("type", .str "force_muted")]
  | .roomLocked locked => .obj [("type", .str "room_locked"), ("locked", .bool locked)]
  | .roomLockedError => .obj [("type", .str "room_locked_error")]

def SignalMessage.fromJson (j : Json) : Option SignalMessage :=
  match getStr j "type" with
  | some "join" => do
      let room_id ← getStr j "room_id"
      let peer_id ← getStr j "peer_id"
      let name ← getStr j "name"
      let password ← getOptStr j "password"
      some (.join room_id peer_id name password)
  | some "leave" => do
      let room_id ← getStr j "room_id"
      let peer_id ← getStr j "peer_id"
      some (.leave room_id peer_id)
  | some "signal" => do
      let to_ ← getOptStr j "to"
      let from_ ← getOptStr j "from"
      let pj ← j.getField "payload"
      let payload ← SignalPayload.fromJson pj
      some (.signal to_ from_ payload)
  | some "kick" => do
      let peer_id ← getStr j "peer_id"
      some (.kick peer_id)
  | some "force_mute" => do
      let peer_id ← getStr j "peer_id"
      some (.forceMute peer_id)
  | some "lock_room" => do
      let password ← getOptStr j "password"
      some (.lockRoom password)
  | some "room_joined" => do
      let room_id ← getStr j "room_id"
      let peersJson ← match j.getField "peers" with
        | some (.arr xs) => some xs
        | _ => none
      let peers ← parsePeers peersJson
      let is_host ← getBoolOrFalse j "is_host"
      let locked ← getBoolOrFalse j "locked"
      some (.roomJoined room_id peers is_host locked)
  | some "peer_joined" => do
      let peer_id ← getStr j "peer_id"
      let name ← getStrOrEmpty j "name"
      some (.peerJoined peer_id name)
  | some "peer_left" => do
      let peer_id ← getStr j "peer_id"
      some (.peerLeft peer_id)
  | some "kicked" => some .kicked
  | some "force_muted" => some .forceMuted
  | some "room_locked" => do
      let locked ← getBool j "locked"
      some (.roomLocked locked)
  | some "room_locked_error" => some .roomLockedError
  | _ => none

-- ── Round-trip helper lemmas ──

theorem peerInfo_round_trip (p : PeerInfo) : PeerInfo.fromJson p.toJson = some p := by
  cases p
  rfl

theorem parsePeers_map_toJson (ps : List PeerInfo) :
    parsePeers (ps.map PeerInfo.toJson) = some ps := by
  induction ps with
  | nil => rfl
  | cons p rest ih => simp [parsePeers, peerInfo_round_trip, ih]

theorem getOptU16_fin (j : Json) (k : String) (v : Fin 65536)
    (h : j.getField k = some (.num v.val)) : getOptU16 j k = some (some v) := by
  have h0 : (0 : ℤ) ≤ (v.val : ℤ) := Int.natCast_nonneg _
  have h1 : ((v.val : ℤ)).toNat < 65536 := by
    rw [Int.toNat_natCast]
    exact v.isLt
  simp only [getOptU16, h]
  rw [dif_pos ⟨h0, h1⟩]
  exact congrArg _ (congrArg _ (Fin.ext (Int.toNat_natCast v.val)))

theorem signalPayload_round_trip (p : SignalPayload) :
    SignalPayload.fromJson p.toJson = some p := by
  cases p with
  | offer s => rfl
  | answer s => rfl
  | iceCandidate c mid idx =>
      cases mid with
      | none =>
          cases idx with
          | none => rfl
          | some v =>
              show (getOptU16 (SignalPayload.toJson (.iceCandidate c none (some v)))
                      "sdp_mline_index").bind _ = _
              rw [getOptU16_fin (SignalPayload.toJson (.iceCandidate c none (some v)))
                    "sdp_mline_index" v rfl]
              rfl
      | some m =>
          cases idx with
          | none => rfl
          | some v =>
              show (getOptU16 (SignalPayload.toJson (.iceCandidate c (some m) (some v)))
                      "sdp_mline_index").bind _ = _
              rw [getOptU16_fin (SignalPayload.toJson (.iceCandidate c (some m) (some v)))
                    "sdp_mline_index" v rfl]
              rfl

/-- C7: every `SignalMessage` serializes to a JSON object tagged on a `type`
field holding the snake_case variant name (and every `SignalPayload` on a
`kind` field likewise), and deserializing the serialized value yields the
original message (round-trip identity). -/
theorem serde_tagged_round_trip :
    (∀ m : SignalMessage,
        m.toJson.getField "type" = some (.str m.tag) ∧
        SignalMessage.fromJson m.toJson = some m) ∧
    (∀ p : SignalPayload,
        p.toJson.getField "kind" = some (.str p.tag) ∧
        SignalPayload.fromJson p.toJson = some p) := by
  constructor
  · intro m
    constructor
    · cases m <;> rfl
    · cases m with
      | join a b c pw => cases pw <;> rfl
      | leave a b => rfl
      | signal t f pl =>
          cases t <;> cases f <;>
            (show (SignalPayload.fromJson (SignalPayload.toJson pl)).bind _ = _
             rw [signalPayload_round_trip]
             rfl)
      | kick a => rfl
      | forceMute a => rfl
      | lockRoom pw => cases pw <;> rfl
      | roomJoined a ps h l =>
          show (parsePeers (ps.map PeerInfo.toJson)).bind _ = _
          rw [parsePeers_map_toJson]
          rfl
      | peerJoined a b => rfl
      | peerLeft a => rfl
      | kicked => rfl
      | forceMuted => rfl
      | roomLocked l => rfl
      | roomLockedError => rfl
  · intro p
    exact ⟨by cases p <;> rfl, signalPayload_round_trip p⟩

/-- C10: inbound messages with a valid `type` tag parse even when optional
fields are absent, substituting defaults: missing `name` in PeerInfo or
PeerJoined becomes `""`, missing `is_host`/`locked` in RoomJoined become
`false`, and missing `password` in Join becomes `none`; in particular the
minimal message `\x7b"type":"peer_joined","peer_id":"x"\x7d` parses. -/
theorem minimal_messages_parse_with_defaults :
    (∀ pid : String,
        SignalMessage.fromJson (.obj [("type", .str "peer_joined"), ("peer_id", .str pid)])
          = some (.peerJoined pid "")) ∧
    (∀ rid pid : String,
        SignalMessage.fromJson
          (.obj [("type", .str "room_joined"), ("room_id", .str rid),
                 ("peers", .arr [.obj [("peer_id", .str pid)]])])
          = some (.roomJoined rid [⟨pid, ""⟩] false false)) ∧
    (∀ rid pid nm : String,
        SignalMessage.fromJson
          (.obj [("type", .str "join"), ("room_id", .str rid), ("peer_id", .str pid),
                 ("name", .str nm)])
          = some (.join rid pid nm none)) :=
  ⟨fun _ => rfl, fun _ _ => rfl, fun _ _ _ => rfl⟩

-- ── Resampling / downmix (audio.rs) ──

/-- Rust `slice::chunks`: blocks of `n` elements, last block possibly shorter. -/
def chunksOf (n : ℕ) (l : List ℚ) : List (List ℚ) :=
  if l = [] ∨ n = 0 then []
  else l.take n :: chunksOf n (l.drop n)
termination_by l.length
decreasing_by
  simp only [not_or] at *
  rename_i h
  have hl : l ≠ [] := h.1
  have hn : n ≠ 0 := h.2
  have : 0 < l.length := List.length_pos.mpr hl
  simp [List.length_drop]
  omega

/-- Step 1 of run_capture / run_mic_test: arithmetic mean across channels per
interleaved frame. -/
def downmix (buf : List ℚ) (channels : ℕ) : List ℚ :=
  (chunksOf channels buf).map (fun fr => fr.sum / (channels : ℚ))

/-- The linear-interpolation resampler shared by run_capture (device → 48 kHz),
run_playback and run_mic_test (48 kHz → device): for each output index the
fractional source position is `i / (dst_rate / src_rate)`; the sample at the
floor of that position is read (0 if past the end), the sample one past the
floor is read (defaulting to the floor sample if past the end), and the two
are linearly interpolated. -/
def resample_linear (src : List ℚ) (src_rate dst_rate : ℕ) (dst_len : ℕ) : List ℚ :=
  (List.range dst_len).map (fun (i : ℕ) =>
    let src_pos : ℚ := (i : ℚ) / ((dst_rate : ℚ) / (src_rate : ℚ))
    let idx : ℕ := ⌊src_pos⌋.toNat
    let frac : ℚ := src_pos - (idx : ℚ)
    let s0 : ℚ := src.getD idx 0
    let s1 : ℚ := src.getD (idx + 1) s0
    s0 * (1 - frac) + s1 * frac)

/-- Steps 1–2 of run_capture: downmix to mono when more than one channel, then
resample to a 960-sample 48 kHz frame when the device rate differs, else copy
(zero-filling any shortfall). -/
def captureStage (device_rate device_channels : ℕ) (device_buf : List ℚ) : List ℚ :=
  let mono := if device_channels > 1 then downmix device_buf device_channels else device_buf
  if device_rate ≠ SAMPLE_RATE then
    resample_linear mono device_rate SAMPLE_RATE FRAME_SIZE
  else
    mono.take FRAME_SIZE ++ List.replicate (FRAME_SIZE - min mono.length FRAME_SIZE) 0

/-- C3: each output sample of `resample_linear` is the linear interpolation of
the source samples at the floor of the fractional position `i·src/dst` and one
past it; when only the floor sample is in range the output clamps to that edge
sample, and past the end of the source the output is silence (0). -/
theorem resample_linear_spec (src : List ℚ) (src_rate dst_rate dst_len : ℕ)
    (hs : 0 < src_rate) (hd : 0 < dst_rate) :
    (resample_linear src src_rate dst_rate dst_len).length = dst_len ∧
    ∀ i < dst_len,
      (resample_linear src src_rate dst_rate dst_len).getD i 0 =
        (let pos : ℚ := (i : ℚ) * (src_rate : ℚ) / (dst_rate : ℚ)
         let idx : ℕ := ⌊pos⌋.toNat
         if idx + 1 < src.length then
           src.getD idx 0 * (1 - (pos - (idx : ℚ))) + src.getD (idx + 1) 0 * (pos - (idx : ℚ))
         else if idx < src.length then
           src.getD idx 0
         else 0) := by
  have hs0 : ((src_rate : ℚ)) ≠ 0 := Nat.cast_ne_zero.mpr hs.ne'
  have hd0 : ((dst_rate : ℚ)) ≠ 0 := Nat.cast_ne_zero.mpr hd.ne'
  constructor
  · unfold resample_linear
    rw [List.length_map, List.length_range]
  · intro i hi
    have hpos : (i : ℚ) / ((dst_rate : ℚ) / (src_rate : ℚ))
        = (i : ℚ) * (src_rate : ℚ) / (dst_rate : ℚ) := by
      field_simp
    have hlen : i < ((List.range dst_len).map (fun (i : ℕ) =>
        let src_pos : ℚ := (i : ℚ) / ((dst_rate : ℚ) / (src_rate : ℚ))
        let idx : ℕ := ⌊src_pos⌋.toNat
        let frac : ℚ := src_pos - (idx : ℚ)
        let s0 : ℚ := src.getD idx 0
        let s1 : ℚ := src.getD (idx + 1) s0
        s0 * (1 - frac) + s1 * frac)).length := by
      rw [List.length_map, List.length_range]
      exact hi
    unfold resample_linear
    rw [List.getD_eq_getElem _ _ hlen, List.getElem_map, List.getElem_range]
    show (let src_pos : ℚ := (i : ℚ) / ((dst_rate : ℚ) / (src_rate : ℚ))
          let idx : ℕ := ⌊src_pos⌋.toNat
          let frac : ℚ := src_pos - (idx : ℚ)
          let s0 : ℚ := src.getD idx 0
          let s1 : ℚ := src.getD (idx + 1) s0
          s0 * (1 - frac) + s1 * frac) = _
    simp only [hpos]
    set pos : ℚ := (i : ℚ) * (src_rate : ℚ) / (dst_rate : ℚ) with hposdef
    set idx : ℕ := ⌊pos⌋.toNat with hidxdef
    by_cases h1 : idx + 1 < src.length
    · rw [if_pos h1]
      rw [List.getD_eq_getElem src _ h1, List.getD_eq_getElem src _ h1]
    · rw [if_neg h1]
      by_cases h2 : idx < src.length
      · rw [if_pos h2]
        rw [List.getD_eq_default src (src.getD idx 0) (by omega)]
        ring
      · rw [if_neg h2]
        rw [List.getD_eq_default src (src.getD idx 0) (by omega)]
        rw [List.getD_eq_default src 0 (by omega)]
        ring

theorem resample_linear_spec_witness :
    0 < 1 ∧ 0 < 2 ∧
    ((resample_linear [1, 3] 1 2 4).length = 4 ∧
     ∀ i < 4,
       (resample_linear [1, 3] 1 2 4).getD i 0 =
         (let pos : ℚ := (i : ℚ) * ((1 : ℕ) : ℚ) / ((2 : ℕ) : ℚ)
          let idx : ℕ := ⌊pos⌋.toNat
          if idx + 1 < [(1 : ℚ), 3].length then
            [(1 : ℚ), 3].getD idx 0 * (1 - (pos - (idx : ℚ)))
              + [(1 : ℚ), 3].getD (idx + 1) 0 * (pos - (idx : ℚ))
          else if idx < [(1 : ℚ), 3].length then
            [(1 : ℚ), 3].getD idx 0
          else 0)) :=
  ⟨by decide, by decide, resample_linear_spec [1, 3] 1 2 4 (by decide) (by decide)⟩

/-- C4: when the device already delivers 48 kHz mono, the downmix/resample
stage of the capture pipeline is the identity on the 960-sample chunk popped
from the ring buffer (neither the resample branch nor the downmix branch is
taken). -/
theorem capture_stage_identity_at_48k_mono (buf : List ℚ) (h : buf.length = FRAME_SIZE) :
    captureStage SAMPLE_RATE 1 buf = buf := by
  show (if (1 : ℕ) > 1 then downmix buf 1 else buf).take FRAME_SIZE ++ _ = buf
  rw [if_neg (by norm_num)]
  rw [h, min_self, Nat.sub_self, List.replicate_zero, List.append_nil]
  exact List.take_of_length_le (le_of_eq h)

theorem capture_stage_identity_at_48k_mono_witness :
    (List.replicate 960 (1 : ℚ)).length = FRAME_SIZE ∧
    captureStage SAMPLE_RATE 1 (List.replicate 960 (1 : ℚ)) = List.replicate 960 (1 : ℚ) :=
  ⟨by rw [List.length_replicate]
      rfl,
   capture_stage_identity_at_48k_mono _ (by rw [List.length_replicate]
                                            rfl)⟩

-- ── PeerConn RTP send path (peer.rs) ──

structure RtpHeader where
  version : ℕ
  payload_type : ℕ
  sequence_number : ℕ
  timestamp : ℕ
  ssrc : ℕ
  marker : Bool
deriving DecidableEq

/-- The per-connection RTP sender state: `rtp_seq` is the AtomicU16 sequence
counter, `rtp_ts` the AtomicU32 timestamp counter, `rtp_ssrc` the SSRC chosen
at construction. -/
structure PeerConnRtp where
  rtp_seq : ℕ
  rtp_ts : ℕ
  rtp_ssrc : ℕ
deriving DecidableEq

/-- PeerConn::new: both counters start at 0; the SSRC is the random u32 drawn
at construction (a parameter here). -/
def PeerConnRtp.init (ssrc : ℕ) : PeerConnRtp := ⟨0, 0, ssrc⟩

/-- PeerConn::send_audio: emit a packet with version 2, payload type 111,
the current counters and SSRC, marker false; fetch_add(1) wraps the u16
sequence and fetch_add(FRAME_SIZE) wraps the u32 timestamp. -/
def send_audio (st : PeerConnRtp) : RtpHeader × PeerConnRtp :=
  (⟨2, 111, st.rtp_seq, st.rtp_ts, st.rtp_ssrc, false⟩,
   ⟨(st.rtp_seq + 1) % 2 ^ 16, (st.rtp_ts + FRAME_SIZE) % 2 ^ 32, st.rtp_ssrc⟩)

/-- The packets emitted by N consecutive send_audio calls. -/
def sendRun (st : PeerConnRtp) : ℕ → List RtpHeader
  | 0 => []
  | n + 1 => (send_audio st).1 :: sendRun (send_audio st).2 n

def iterState (st : PeerConnRtp) : ℕ → PeerConnRtp
  | 0 => st
  | i + 1 => (send_audio (iterState st i)).2

/-- Closed form of the sender state after i calls. -/
def stateAfter (ssrc : ℕ) (i : ℕ) : PeerConnRtp :=
  ⟨i % 2 ^ 16, (FRAME_SIZE * i) % 2 ^ 32, ssrc⟩

theorem stateAfter_step (ssrc i : ℕ) :
    (send_audio (stateAfter ssrc i)).2 = stateAfter ssrc (i + 1) := by
  have h1 : (i % 2 ^ 16 + 1) % 2 ^ 16 = (i + 1) % 2 ^ 16 := by omega
  simp [send_audio, stateAfter, FRAME_SIZE, h1]
  omega

theorem iterState_init (ssrc : ℕ) : ∀ i, iterState (PeerConnRtp.init ssrc) i = stateAfter ssrc i := by
  intro i
  induction i with
  | zero => simp [iterState, PeerConnRtp.init, stateAfter]
  | succ i ih => rw [iterState, ih, stateAfter_step]

theorem iterState_shift (st : PeerConnRtp) : ∀ i, iterState st (i + 1) = iterState ((send_audio st).2) i := by
  intro i
  induction i with
  | zero => rfl
  | succ i ih => rw [iterState, ih, iterState]

theorem sendRun_length (st : PeerConnRtp) : ∀ N, (sendRun st N).length = N := by
  intro N
  induction N generalizing st with
  | zero => rfl
  | succ n ih => simp [sendRun, ih]

theorem sendRun_getD (d : RtpHeader) :
    ∀ N i (st : PeerConnRtp), i < N →
      (sendRun st N).getD i d = (send_audio (iterState st i)).1 := by
  intro N
  induction N with
  | zero => omega
  | succ n ih =>
      intro i st hi
      cases i with
      | zero => rfl
      | succ i =>
          rw [sendRun]
          rw [show ((send_audio st).1 :: sendRun (send_audio st).2 n).getD (i + 1) d
                = (sendRun (send_audio st).2 n).getD i d from rfl]
          rw [ih i (send_audio st).2 (by omega), iterState_shift]

/-- C1: over N calls to send_audio from a fresh PeerConn, the i-th emitted RTP
packet has version 2, payload type 111, marker false, the construction-time
SSRC, sequence number i mod 2^16 and timestamp 960·i mod 2^32; consecutive
packets differ by exactly +1 in sequence (mod 2^16) and +960 in timestamp
(mod 2^32) and share the same SSRC. -/
theorem send_audio_rtp_stream (ssrc N i : ℕ) (h : i < N) :
    (sendRun (PeerConnRtp.init ssrc) N).length = N ∧
    ((sendRun (PeerConnRtp.init ssrc) N).getD i ⟨0, 0, 0, 0, 0, true⟩ =
      ⟨2, 111, i % 2 ^ 16, (960 * i) % 2 ^ 32, ssrc, false⟩) ∧
    (i + 1 < N →
      ((sendRun (PeerConnRtp.init ssrc) N).getD (i + 1) ⟨0, 0, 0, 0, 0, true⟩).sequence_number
        = (((sendRun (PeerConnRtp.init ssrc) N).getD i ⟨0, 0, 0, 0, 0, true⟩).sequence_number + 1) % 2 ^ 16 ∧
      ((sendRun (PeerConnRtp.init ssrc) N).getD (i + 1) ⟨0, 0, 0, 0, 0, true⟩).timestamp
        = (((sendRun (PeerConnRtp.init ssrc) N).getD i ⟨0, 0, 0, 0, 0, true⟩).timestamp + 960) % 2 ^ 32 ∧
      ((sendRun (PeerConnRtp.init ssrc) N).getD (i + 1) ⟨0, 0, 0, 0, 0, true⟩).ssrc
        = ((sendRun (PeerConnRtp.init ssrc) N).getD i ⟨0, 0, 0, 0, 0, true⟩).ssrc) := by
  have hpkt : ∀ j, j < N →
      (sendRun (PeerConnRtp.init ssrc) N).getD j ⟨0, 0, 0, 0, 0, true⟩ =
        ⟨2, 111, j % 2 ^ 16, (960 * j) % 2 ^ 32, ssrc, false⟩ := by
    intro j hj
    rw [sendRun_getD _ N j _ hj, iterState_init]
    simp [send_audio, stateAfter, FRAME_SIZE]
  refine ⟨sendRun_length _ N, hpkt i h, fun hi1 => ?_⟩
  rw [hpkt i h, hpkt (i + 1) hi1]
  refine ⟨?_, ?_, rfl⟩
  · show (i + 1) % 2 ^ 16 = (i % 2 ^ 16 + 1) % 2 ^ 16
    omega
  · show (960 * (i + 1)) % 2 ^ 32 = ((960 * i) % 2 ^ 32 + 960) % 2 ^ 32
    omega

theorem send_audio_rtp_stream_witness :
    1 < 3 ∧
    ((sendRun (PeerConnRtp.init 5) 3).getD 1 ⟨0, 0, 0, 0, 0, true⟩ =
      ⟨2, 111, 1 % 2 ^ 16, (960 * 1) % 2 ^ 32, 5, false⟩) :=
  ⟨by decide, (send_audio_rtp_stream 5 3 1 (by decide)).2.1⟩

-- ── Capture pipeline state machine (audio.rs run_capture) ──

/-- Stream-open-time configuration of one capture instance: the device-native
rate and channel count, the noise-suppression flag, and the nnnoiseless
denoiser (external library, abstract here). -/
structure CaptureCfg where
  device_rate : ℕ
  device_channels : ℕ
  ns : Bool
  denoise : List ℚ → List ℚ

/-- `device_frame_samples`: one 20 ms device-native interleaved chunk. -/
def CaptureCfg.frameSamples (cfg : CaptureCfg) : ℕ :=
  cfg.device_rate / 50 * cfg.device_channels

/-- `ring_size`: ~200 ms of device-native audio. -/
def CaptureCfg.ringSize (cfg : CaptureCfg) : ℕ :=
  cfg.device_rate / 5 * cfg.device_channels

structure CaptureState where
  muted : Bool
  speaking : Bool
  ring : List ℚ
deriving DecidableEq

/-- The hardware input callback: when the mute flag is set it returns
immediately, discarding the input entirely (nothing is buffered); otherwise
push_slice appends as many samples as fit in the ring buffer. -/
def hwCallback (cfg : CaptureCfg) (st : CaptureState) (data : List ℚ) : CaptureState :=
  if st.muted then st
  else { st with ring := st.ring ++ data.take (cfg.ringSize - st.ring.length) }

def peakAbs (frame : List ℚ) : ℚ := frame.foldl (fun a s => max a |s|) 0

/-- One pass of the processing loop: if less than one 20 ms device-native chunk
is buffered, sleep and emit nothing; otherwise pop the chunk, downmix/resample,
optionally denoise, store the voice-activity flag (post-denoise peak > 0.01),
and emit the frame.  Opus encoding of the emitted 960-sample PCM frame is an
external library call and is modelled as the emission of the frame itself. -/
def procStep (cfg : CaptureCfg) (st : CaptureState) : CaptureState × Option (List ℚ) :=
  if st.ring.length < cfg.frameSamples then (st, none)
  else
    let chunk := st.ring.take cfg.frameSamples
    let stage := captureStage cfg.device_rate cfg.device_channels chunk
    let frame := if cfg.ns then cfg.denoise stage else stage
    ({ muted := st.muted, speaking := decide (peakAbs frame > 1 / 100),
       ring := st.ring.drop cfg.frameSamples }, some frame)

/-- Events interleaved by the capture instance: a hardware-callback delivery,
one processing-loop pass, or AudioCapture::set_muted. -/
inductive CapEvent where
  | hw (data : List ℚ)
  | proc
  | setMuted (b : Bool)

def capStep (cfg : CaptureCfg) (st : CaptureState) : CapEvent → CaptureState × Option (List ℚ)
  | .hw d => (hwCallback cfg st d, none)
  | .proc => procStep cfg st
  | .setMuted b => ({ st with muted := b }, none)

def capRun (cfg : CaptureCfg) (st : CaptureState) : List CapEvent → CaptureState × List (List ℚ)
  | [] => (st, [])
  | e :: evs =>
      let r := capStep cfg st e
      let rest := capRun cfg r.1 evs
      (rest.1, r.2.toList ++ rest.2)

/-- While muted with the ring drained below one chunk, hardware callbacks and
processing passes change nothing at all. -/
theorem mutedDrained_run_fix (cfg : CaptureCfg) (st : CaptureState)
    (hm : st.muted = true) (hd : st.ring.length < cfg.frameSamples) :
    ∀ evs : List CapEvent, (∀ e ∈ evs, ∀ b, e ≠ .setMuted b) →
      capRun cfg st evs = (st, []) := by
  intro evs
  induction evs with
  | nil => intro _; rfl
  | cons e evs ih =>
      intro hev
      have hstep : capStep cfg st e = (st, none) := by
        cases e with
        | hw d => simp [capStep, hwCallback, hm]
        | proc => simp [capStep, procStep, hd]
        | setMuted b => exact absurd rfl (hev _ (by simp) b)
      rw [capRun, hstep]
      rw [ih (fun e he b => hev e (by simp [he]) b)]
      rfl

/-- C2: while the mute flag is set the hardware callback discards its input
entirely; while muted with the buffered audio drained, any sequence of
callback deliveries and processing passes emits zero frames; and after the
flag is cleared, a single 20 ms hardware delivery followed by one processing
pass emits a frame again. -/
theorem muted_capture_silent_then_resumes (cfg : CaptureCfg) (st : CaptureState)
    (data : List ℚ) (evs : List CapEvent)
    (hm : st.muted = true) (hd : st.ring.length < cfg.frameSamples)
    (hev : ∀ e ∈ evs, ∀ b, e ≠ CapEvent.setMuted b)
    (hdata : data.length = cfg.frameSamples)
    (hroom : cfg.frameSamples ≤ cfg.ringSize - st.ring.length) :
    (∀ d, hwCallback cfg st d = st) ∧
    (capRun cfg st evs).2 = [] ∧
    (capRun cfg st [CapEvent.setMuted false, CapEvent.hw data, CapEvent.proc]).2.length = 1 := by
  refine ⟨fun d => by simp [hwCallback, hm], ?_, ?_⟩
  · rw [mutedDrained_run_fix cfg st hm hd evs hev]
  · have hlen : (data.take (cfg.ringSize - st.ring.length)).length = data.length := by
      rw [List.length_take]
      omega
    have hafter : ¬ (st.ring ++ data.take (cfg.ringSize - st.ring.length)).length
        < cfg.frameSamples := by
      rw [List.length_append, hlen, hdata]
      omega
    have hrun : (capRun cfg st [CapEvent.setMuted false, CapEvent.hw data, CapEvent.proc]).2
        = (procStep cfg ⟨false, st.speaking,
            st.ring ++ data.take (cfg.ringSize - st.ring.length)⟩).2.toList ++ [] := rfl
    rw [hrun, List.append_nil]
    unfold procStep
    rw [if_neg hafter]
    rfl

theorem muted_capture_silent_then_resumes_witness :
    ((({ muted := true, speaking := false, ring := [] } : CaptureState).ring.length
        < ({ device_rate := 48000, device_channels := 1, ns := false,
             denoise := id } : CaptureCfg).frameSamples) ∧
     (capRun { device_rate := 48000, device_channels := 1, ns := false, denoise := id }
        { muted := true, speaking := false, ring := [] }
        [CapEvent.setMuted false, CapEvent.hw (List.replicate 960 1), CapEvent.proc]).2.length
       = 1) := by
  have h := muted_capture_silent_then_resumes
    { device_rate := 48000, device_channels := 1, ns := false, denoise := id }
    { muted := true, speaking := false, ring := [] }
    (List.replicate 960 1) [CapEvent.hw [1]]
    rfl (by decide)
    (by intro e he b
        simp at he
        simp [he])
    (by rw [List.length_replicate]
        rfl)
    (by show (960 : ℕ) ≤ 9600 - 0
        omega)
  exact ⟨by decide, h.2.2⟩

/-- C9: while the mute flag is set and the ring buffer is drained, the
speaking flag is never written: any sequence of hardware callbacks and
processing passes (and the set_muted(true) write itself) leaves is_speaking
at the last value computed before muting. -/
theorem muted_drained_speaking_unchanged (cfg : CaptureCfg) (st : CaptureState)
    (evs : List CapEvent)
    (hm : st.muted = true) (hd : st.ring.length < cfg.frameSamples)
    (hev : ∀ e ∈ evs, ∀ b, e ≠ CapEvent.setMuted b) :
    (capRun cfg st evs).1.speaking = st.speaking ∧
    (∀ stx : CaptureState, ∀ b, (capStep cfg stx (.setMuted b)).1.speaking = stx.speaking) := by
  refine ⟨?_, fun stx b => rfl⟩
  rw [mutedDrained_run_fix cfg st hm hd evs hev]

theorem muted_drained_speaking_unchanged_witness :
    (capRun { device_rate := 48000, device_channels := 1, ns := false, denoise := id }
       { muted := true, speaking := true, ring := [] }
       [CapEvent.hw [1], CapEvent.proc]).1.speaking = true := by
  have h := muted_drained_speaking_unchanged
    { device_rate := 48000, device_channels := 1, ns := false, denoise := id }
    { muted := true, speaking := true, ring := [] }
    [CapEvent.hw [1], CapEvent.proc]
    rfl (by decide)
    (by intro e he b
        simp at he
        rcases he with h1 | h1 <;> simp [h1])
  exact h.1

-- ── PeerConn inbound decode loop (peer.rs on_track) ──

/-- Outcome of one track.read_rtp() call: an RTP packet (its payload bytes)
or a transport read error. -/
inductive ReadResult where
  | ok (payload : List ℕ)
  | err
deriving DecidableEq

inductive LoopEnd where
  | readFailed
  | consumerGone
deriving DecidableEq

/-- The decode loop: reads packets in order; an empty payload is skipped; a
payload the Opus decoder (abstract library parameter `d`) rejects is dropped;
a decoded frame is sent to the engine, and a failed send (the consumer has
accepted `cap` frames and is gone — `cap = none` means it never goes away)
breaks the loop; a read error breaks the loop.  Returns the frames delivered
and how (whether) the loop ended; `none` means the loop is still running
after the listed reads. -/
def decodeLoop (d : List ℕ → Option (List ℚ)) (cap : Option ℕ) :
    List ReadResult → ℕ → List (List ℚ) × Option LoopEnd
  | [], _ => ([], none)
  | .err :: _, _ => ([], some .readFailed)
  | .ok payload :: rest, sent =>
      if payload = [] then decodeLoop d cap rest sent
      else
        match d payload with
        | none => decodeLoop d cap rest sent
        | some pcm =>
            if cap = some sent then ([], some .consumerGone)
            else
              let r := decodeLoop d cap rest (sent + 1)
              (pcm :: r.1, r.2)

/-- Per-packet spec-side summary: the frame (if any) that one read result
contributes. -/
def frameOf (d : List ℕ → Option (List ℚ)) : ReadResult → Option (List ℚ)
  | .ok p => if p = [] then none else d p
  | .err => none

/-- The frames that should be delivered: one decoded frame per successfully
decoded non-empty packet read before the first transport error. -/
def goodFrames (d : List ℕ → Option (List ℚ)) (reads : List ReadResult) : List (List ℚ) :=
  (reads.takeWhile (fun r => r ≠ .err)).filterMap (frameOf d)

theorem goodFrames_cons_err (d : List ℕ → Option (List ℚ)) (rest : List ReadResult) :
    goodFrames d (.err :: rest) = [] := by
  unfold goodFrames
  rw [List.takeWhile_cons, if_neg (by simp)]
  rfl

theorem goodFrames_cons_ok (d : List ℕ → Option (List ℚ)) (p : List ℕ)
    (rest : List ReadResult) :
    goodFrames d (.ok p :: rest) = (frameOf d (.ok p)).toList ++ goodFrames d rest := by
  unfold goodFrames
  rw [List.takeWhile_cons, if_pos (by simp)]
  cases hq : frameOf d (.ok p) with
  | none =>
      rw [List.filterMap_cons_none hq]
      rfl
  | some pcm =>
      rw [List.filterMap_cons_some hq]
      rfl

theorem errMem_ite_cons_ok (p : List ℕ) (rest : List ReadResult) :
    (if ReadResult.err ∈ ReadResult.ok p :: rest then some LoopEnd.readFailed else none)
      = (if ReadResult.err ∈ rest then some LoopEnd.readFailed else none) := by
  simp

theorem decodeLoop_cons_empty (d : List ℕ → Option (List ℚ)) (cap : Option ℕ)
    (rest : List ReadResult) (sent : ℕ) :
    decodeLoop d cap (.ok [] :: rest) sent = decodeLoop d cap rest sent := by
  rw [decodeLoop, if_pos rfl]

theorem decodeLoop_cons_bad (d : List ℕ → Option (List ℚ)) (cap : Option ℕ)
    (rest : List ReadResult) (sent : ℕ) (p : List ℕ) (hp : p ≠ []) (hdp : d p = none) :
    decodeLoop d cap (.ok p :: rest) sent = decodeLoop d cap rest sent := by
  rw [decodeLoop, if_neg hp]
  simp only [hdp]

theorem decodeLoop_cons_decoded (d : List ℕ → Option (List ℚ)) (cap : Option ℕ)
    (rest : List ReadResult) (sent : ℕ) (p : List ℕ) (pcm : List ℚ)
    (hp : p ≠ []) (hdp : d p = some pcm) (hcap : cap ≠ some sent) :
    decodeLoop d cap (.ok p :: rest) sent
      = (pcm :: (decodeLoop d cap rest (sent + 1)).1, (decodeLoop d cap rest (sent + 1)).2) := by
  rw [decodeLoop, if_neg hp]
  simp only [hdp]
  rw [if_neg hcap]

theorem decodeLoop_cons_gone (d : List ℕ → Option (List ℚ))
    (rest : List ReadResult) (sent : ℕ) (p : List ℕ) (pcm : List ℚ)
    (hp : p ≠ []) (hdp : d p = some pcm) :
    decodeLoop d (some sent) (.ok p :: rest) sent = ([], some .consumerGone) := by
  rw [decodeLoop, if_neg hp]
  simp only [hdp]
  simp

theorem decodeLoop_none_spec (d : List ℕ → Option (List ℚ)) :
    ∀ (reads : List ReadResult) (sent : ℕ),
      decodeLoop d none reads sent =
        (goodFrames d reads, if ReadResult.err ∈ reads then some .readFailed else none) := by
  intro reads
  induction reads with
  | nil => intro sent; simp [decodeLoop, goodFrames]
  | cons r rest ih =>
      intro sent
      cases r with
      | err =>
          rw [goodFrames_cons_err]
          simp [decodeLoop]
      | ok p =>
          rw [goodFrames_cons_ok, errMem_ite_cons_ok]
          by_cases hp : p = []
          · rw [show frameOf d (.ok p) = none from by simp [frameOf, hp]]
            rw [hp, decodeLoop_cons_empty, ih sent]
            rfl
          · cases hdp : d p with
            | none =>
                rw [show frameOf d (.ok p) = none from by simp [frameOf, hp, hdp]]
                rw [decodeLoop_cons_bad d none rest sent p hp hdp, ih sent]
                rfl
            | some pcm =>
                rw [show frameOf d (.ok p) = some pcm from by simp [frameOf, hp, hdp]]
                rw [decodeLoop_cons_decoded d none rest sent p pcm hp hdp (by simp)]
                rw [ih (sent + 1)]
                rfl

theorem decodeLoop_cap_spec (d : List ℕ → Option (List ℚ)) :
    ∀ (reads : List ReadResult) (k sent : ℕ), sent ≤ k →
      decodeLoop d (some k) reads sent =
        (if (goodFrames d reads).length + sent ≤ k then
          (goodFrames d reads, if ReadResult.err ∈ reads then some .readFailed else none)
        else ((goodFrames d reads).take (k - sent), some .consumerGone)) := by
  intro reads
  induction reads with
  | nil =>
      intro k sent hsk
      have h0 : goodFrames d [] = [] := rfl
      rw [decodeLoop, h0]
      rw [if_pos (by simpa using hsk)]
      simp
  | cons r rest ih =>
      intro k sent hsk
      cases r with
      | err =>
          rw [goodFrames_cons_err]
          rw [decodeLoop]
          rw [if_pos (by simpa using hsk)]
          rw [if_pos (List.mem_cons_self _ _)]
      | ok p =>
          rw [goodFrames_cons_ok, errMem_ite_cons_ok]
          by_cases hp : p = []
          · rw [show frameOf d (.ok p) = none from by simp [frameOf, hp]]
            rw [hp, decodeLoop_cons_empty, ih k sent hsk]
            rfl
          · cases hdp : d p with
            | none =>
                rw [show frameOf d (.ok p) = none from by simp [frameOf, hp, hdp]]
                rw [decodeLoop_cons_bad d (some k) rest sent p hp hdp, ih k sent hsk]
                rfl
            | some pcm =>
                rw [show frameOf d (.ok p) = some pcm from by simp [frameOf, hp, hdp]]
                by_cases hse : sent = k
                · subst hse
                  rw [decodeLoop_cons_gone d rest sent p pcm hp hdp]
                  have hc : ¬ (((some pcm).toList ++ goodFrames d rest).length + sent ≤ sent) := by
                    simp only [Option.toList_some, List.singleton_append, List.length_cons]
                    omega
                  rw [if_neg hc]
                  rw [Nat.sub_self, List.take_zero]
                · have hcap : (some k : Option ℕ) ≠ some sent := by
                    intro hh
                    exact hse (Option.some.inj hh).symm
                  rw [decodeLoop_cons_decoded d (some k) rest sent p pcm hp hdp hcap]
                  rw [ih k (sent + 1) (by omega)]
                  by_cases hle : (goodFrames d rest).length + (sent + 1) ≤ k
                  · have hc : ((some pcm).toList ++ goodFrames d rest).length + sent ≤ k := by
                      simp only [Option.toList_some, List.singleton_append, List.length_cons]
                      omega
                    rw [if_pos hle, if_pos hc]
                    rfl
                  · have hc : ¬ (((some pcm).toList ++ goodFrames d rest).length + sent ≤ k) := by
                      simp only [Option.toList_some, List.singleton_append, List.length_cons]
                      omega
                    rw [if_neg hle, if_neg hc]
                    rw [show k - sent = (k - (sent + 1)) + 1 from by omega]
                    rfl

/-- C6: the decode loop skips empty payloads and continues; drops packets the
decoder rejects and continues; forwards one DecodedFrame per successfully
decoded packet; and ends exactly at a transport read error (readFailed) or at
a failed send because the frame consumer is gone (consumerGone): with the
consumer alive the delivered frames are exactly `goodFrames` and the loop
ends iff an err read occurs, and with a consumer that accepts only k frames
the loop delivers the first k good frames and ends with consumerGone iff
there are more than k. -/
theorem decode_loop_spec (d : List ℕ → Option (List ℚ)) (reads rest : List ReadResult)
    (k sent : ℕ) (p : List ℕ) (hfail : d p = none) (hp : p ≠ []) :
    (decodeLoop d none reads 0 =
      (goodFrames d reads, if ReadResult.err ∈ reads then some .readFailed else none)) ∧
    (decodeLoop d (some k) reads 0 =
      (if (goodFrames d reads).length ≤ k then
        (goodFrames d reads, if ReadResult.err ∈ reads then some .readFailed else none)
      else ((goodFrames d reads).take k, some .consumerGone))) ∧
    (∀ cap, decodeLoop d cap (.ok [] :: rest) sent = decodeLoop d cap rest sent) ∧
    (∀ cap, decodeLoop d cap (.ok p :: rest) sent = decodeLoop d cap rest sent) := by
  refine ⟨decodeLoop_none_spec d reads 0, ?_, ?_, ?_⟩
  · rw [decodeLoop_cap_spec d reads k 0 (Nat.zero_le k)]
    simp
  · intro cap
    rw [decodeLoop]
    rw [if_pos rfl]
  · intro cap
    rw [decodeLoop]
    rw [if_neg hp, hfail]

theorem decode_loop_spec_witness :
    ((fun _ : List ℕ => (none : Option (List ℚ))) [1] = none ∧ ([1] : List ℕ) ≠ []) ∧
    (∀ cap, decodeLoop (fun _ => none) cap [.ok [1], .err] 0
      = decodeLoop (fun _ => none) cap [.err] 0) :=
  ⟨⟨rfl, by decide⟩,
   (decode_loop_spec (fun _ => none) [] [.err] 0 0 [1] rfl (by decide)).2.2.2⟩

-- ── Mic test level events (audio.rs run_mic_test) ──

/-- Rust f32::clamp(0.0, 1.0). -/
def clamp01 (x : ℚ) : ℚ := min (max x 0) 1

/-- The level events emitted by the mic-test loop over a sequence of processed
960-sample frames: `level_counter` is incremented each frame and on reaching 3
it is reset and the clamped peak of the current frame is emitted. -/
def micLevels : List (List ℚ) → ℕ → List ℚ
  | [], _ => []
  | f :: rest, counter =>
      if 3 ≤ counter + 1 then clamp01 (peakAbs f) :: micLevels rest 0
      else micLevels rest (counter + 1)

theorem micLevels_length (frames : List (List ℚ)) :
    ∀ counter, counter < 3 →
      (micLevels frames counter).length = (frames.length + counter) / 3 := by
  induction frames with
  | nil => intro c hc; simp [micLevels]; omega
  | cons f rest ih =>
      intro c hc
      by_cases h3 : 3 ≤ c + 1
      · rw [micLevels, if_pos h3, List.length_cons, ih 0 (by omega)]
        simp only [List.length_cons]
        omega
      · rw [micLevels, if_neg h3, ih (c + 1) (by omega)]
        simp only [List.length_cons]
        omega

theorem micLevels_mem_bounds (frames : List (List ℚ)) :
    ∀ counter, ∀ v ∈ micLevels frames counter, 0 ≤ v ∧ v ≤ 1 := by
  induction frames with
  | nil => intro c v hv; simp [micLevels] at hv
  | cons f rest ih =>
      intro c v hv
      by_cases h3 : 3 ≤ c + 1
      · rw [micLevels, if_pos h3] at hv
        rcases List.mem_cons.mp hv with h | h
        · subst h
          refine ⟨le_min (le_max_right _ _) (by norm_num), min_le_right _ _⟩
        · exact ih 0 v h
      · rw [micLevels, if_neg h3] at hv
        exact ih (c + 1) v hv

/-- C8: starting from a zero counter, the mic-test loop emits one level event
per three consecutive 20 ms frames (~every 50 ms as the code's comment puts
it; exactly every 60 ms), each event being the peak absolute amplitude of the
frame it fires on, clamped to [0, 1]; emitted values always lie in [0, 1]. -/
theorem mic_test_level_spec (frames : List (List ℚ)) (a b c : List ℚ)
    (rest : List (List ℚ)) :
    micLevels (a :: b :: c :: rest) 0 = clamp01 (peakAbs c) :: micLevels rest 0 ∧
    micLevels [] 0 = [] ∧ micLevels [a] 0 = [] ∧ micLevels [a, b] 0 = [] ∧
    (micLevels frames 0).length = frames.length / 3 ∧
    (∀ v ∈ micLevels frames 0, 0 ≤ v ∧ v ≤ 1) := by
  refine ⟨rfl, rfl, rfl, rfl, ?_, micLevels_mem_bounds frames 0⟩
  rw [micLevels_length frames 0 (by omega), Nat.add_zero]

theorem mic_test_level_spec_witness :
    micLevels [[2], [0], [1/2]] 0 = [clamp01 (peakAbs [1/2])] ∧
    (0 ≤ clamp01 (peakAbs [(1 : ℚ)/2]) ∧ clamp01 (peakAbs [(1 : ℚ)/2]) ≤ 1) :=
  ⟨(mic_test_level_spec [] [2] [0] [1/2] []).1,
   (mic_test_level_spec [[2], [0], [1/2]] [2] [0] [1/2] []).2.2.2.2.2
     (clamp01 (peakAbs [1/2]))
     (by rw [(mic_test_level_spec [] [2] [0] [1/2] []).1]
         exact List.mem_singleton.mpr rfl)⟩

-- ── Signaling read task (signaling.rs connect, inbound task) ──

/-- The shared `ping_sent_at` slot: the instant the last application-level
"ping" was written, or none once consumed (Mutex<Option<Instant>>; time is an
abstract tick count). -/
structure RttState where
  ping_sent_at : Option ℕ
deriving DecidableEq

/-- The write task's RTT-ping tick: records Instant::now() before sending the
text "ping". -/
def sendPing (now : ℕ) (_st : RttState) : RttState := ⟨some now⟩

/-- What the read task does with one inbound text frame. -/
inductive ReadEffect where
  | forward (m : SignalMessage)
  | rtt (ms : ℕ)
  | dropped
deriving DecidableEq

/-- One inbound text frame in the read task, parameterized by the serde_json
parser (external library): a literal "pong" takes the recorded ping send time
— emitting an RTT sample if one was recorded, nothing otherwise — and is
never forwarded; any other text is parsed as a SignalMessage, forwarded on
success and logged-and-dropped on failure; the task continues in every case. -/
def handleText (parse : String → Option SignalMessage) (now : ℕ)
    (st : RttState) (text : String) : RttState × Option ReadEffect :=
  if text = "pong" then
    match st.ping_sent_at with
    | some sent => (⟨none⟩, some (.rtt (now - sent)))
    | none => (⟨none⟩, none)
  else
    match parse text with
    | some m => (st, some (.forward m))
    | none => (st, some .dropped)

/-- The read task over a list of (arrival tick, text) frames: every frame is
handled and the loop keeps going regardless of the handling outcome. -/
def readLoop (parse : String → Option SignalMessage) :
    List (ℕ × String) → RttState → List ReadEffect
  | [], _ => []
  | (now, text) :: rest, st =>
      ((handleText parse now st text).2).toList ++ readLoop parse rest (handleText parse now st text).1

/-- C5 counterexample: after a ping at tick 0 answered by a pong at tick 50
(RTT sample 50 emitted, the recorded send time consumed), a second "pong" at
tick 80 produces no RTT sample at all — not a sample equal to the 80 ticks
elapsed since the last "ping" was sent, contradicting the claim that every
inbound "pong" produces an RTT sample equal to the elapsed time since the
last "ping". -/
theorem pong_without_outstanding_ping_no_sample :
    (handleText (fun _ => none) 50 (sendPing 0 ⟨none⟩) "pong").2 = some (.rtt 50) ∧
    (handleText (fun _ => none) 80
       (handleText (fun _ => none) 50 (sendPing 0 ⟨none⟩) "pong").1 "pong").2 = none :=
  ⟨rfl, rfl⟩

/-- C5 (amended): a literal inbound "pong" is never forwarded on the incoming
SignalMessage channel; when a ping send time is recorded and not yet consumed
it produces an RTT sample equal to the time elapsed since that ping and
clears the record, and otherwise it produces nothing; any other text that
fails to parse as a SignalMessage is dropped and the read loop continues; any
text that parses is forwarded unchanged and the loop continues. -/
theorem read_task_text_handling (parse : String → Option SignalMessage)
    (now sent : ℕ) (st : RttState) (text : String) (m : SignalMessage)
    (frames : List (ℕ × String)) :
    (handleText parse now ⟨some sent⟩ "pong" = (⟨none⟩, some (.rtt (now - sent)))) ∧
    (handleText parse now ⟨none⟩ "pong" = (⟨none⟩, none)) ∧
    (∀ m2, (handleText parse now st "pong").2 ≠ some (.forward m2)) ∧
    (text ≠ "pong" → parse text = none →
      handleText parse now st text = (st, some .dropped)) ∧
    (text ≠ "pong" → parse text = some m →
      handleText parse now st text = (st, some (.forward m))) ∧
    (readLoop parse ((now, text) :: frames) st =
      ((handleText parse now st text).2).toList ++
        readLoop parse frames (handleText parse now st text).1) := by
  refine ⟨rfl, rfl, ?_, ?_, ?_, rfl⟩
  · intro m2
    unfold handleText
    rw [if_pos rfl]
    cases st.ping_sent_at <;> simp
  · intro ht hparse
    unfold handleText
    rw [if_neg ht, hparse]
  · intro ht hparse
    unfold handleText
    rw [if_neg ht, hparse]

theorem read_task_text_handling_witness :
    ("ping2" ≠ "pong" ∧ (fun _ : String => (none : Option SignalMessage)) "ping2" = none) ∧
    handleText (fun _ => none) 7 ⟨none⟩ "ping2" = (⟨none⟩, some .dropped) :=
  ⟨⟨by decide, rfl⟩,
   (read_task_text_handling (fun _ => none) 7 0 ⟨none⟩ "ping2" .kicked []).2.2.2.1
     (by decide) rfl⟩

end Entavi
